import Mathlib

/-!
# WealthFlow: price-ingestion and ledger-consistency core, verified model

A shallow embedding of the non-UI logic of the WealthFlow repository:

* `src/services/geminiService.ts` — `fetchCurrentStockPrices`: the fenced-block /
  bracket-fallback extraction of a JSON quote array from raw model output, and
  citation-source filtering;
* `src/App.tsx` — `handleUpdateStocks` (demo and persisted price-sync paths) and
  the transaction ledger (`handleSaveTransaction`, `deleteTransaction`).

JavaScript numbers are modelled as exact rationals (`ℚ`); `JSON.parse` is
modelled by an executable recursive-descent parser over the JSON grammar;
`undefined` is modelled by `Option`; thrown exceptions by `Except`.
-/

set_option maxRecDepth 4000

namespace WealthFlow

/-- JSON values as produced by `JSON.parse`.  Object fields keep source order;
duplicate keys are kept (JavaScript property lookup takes the last one). -/
inductive Json where
  | null : Json
  | bool (b : Bool) : Json
  | num (q : ℚ) : Json
  | str (s : String) : Json
  | arr (elems : List Json) : Json
  | obj (fields : List (String × Json)) : Json

/-- JavaScript object property read, last duplicate key wins; `none` is
`undefined` (field absent). -/
def lookupField (fs : List (String × Json)) (k : String) : Option Json :=
  (fs.reverse.find? (fun p => p.1 = k)).map (fun p => p.2)

/-- Whitespace accepted between JSON tokens by `JSON.parse` (RFC 8259). -/
def isJsonWs (c : Char) : Bool :=
  c = ' ' || c = '\t' || c = '\n' || c = '\r'

def hexVal (c : Char) : Option Nat :=
  if '0' ≤ c && c ≤ '9' then some (c.toNat - 48)
  else if 'a' ≤ c && c ≤ 'f' then some (c.toNat - 87)
  else if 'A' ≤ c && c ≤ 'F' then some (c.toNat - 55)
  else none

/-- JSON string body after the opening quote: returns decoded characters and
the remainder after the closing quote.  Unescaped control characters are
rejected, as by `JSON.parse`. -/
def parseStrChars : Nat → List Char → Option (List Char × List Char)
  | 0, _ => none
  | _ + 1, [] => none
  | fuel + 1, c :: cs =>
    if c = '"' then some ([], cs)
    else if c = '\\' then
      match cs with
      | [] => none
      | e :: cs2 =>
        let cont (ch : Char) (rest : List Char) : Option (List Char × List Char) :=
          (parseStrChars fuel rest).map (fun p => (ch :: p.1, p.2))
        if e = '"' then cont '"' cs2
        else if e = '\\' then cont '\\' cs2
        else if e = '/' then cont '/' cs2
        else if e = 'b' then cont (Char.ofNat 8) cs2
        else if e = 'f' then cont (Char.ofNat 12) cs2
        else if e = 'n' then cont '\n' cs2
        else if e = 'r' then cont '\r' cs2
        else if e = 't' then cont '\t' cs2
        else if e = 'u' then
          match cs2 with
          | h1 :: h2 :: h3 :: h4 :: cs3 =>
            match hexVal h1, hexVal h2, hexVal h3, hexVal h4 with
            | some a, some b, some c3, some d =>
              (parseStrChars fuel cs3).map
                (fun p => (Char.ofNat (((a * 16 + b) * 16 + c3) * 16 + d) :: p.1, p.2))
            | _, _, _, _ => none
          | _ => none
        else none
    else if c.toNat < 32 then none
    else (parseStrChars fuel cs).map (fun p => (c :: p.1, p.2))

def digitsVal (ds : List Char) : Nat :=
  ds.foldl (fun a c => a * 10 + (c.toNat - 48)) 0

/-- Optional fraction part `.[0-9]+`; `none` means malformed. -/
def parseFrac (cs : List Char) : Option (List Char × List Char) :=
  match cs with
  | c :: r =>
    if c = '.' then
      let ds := r.takeWhile Char.isDigit
      if ds.isEmpty then none else some (ds, r.dropWhile Char.isDigit)
    else some ([], cs)
  | [] => some ([], [])

/-- Optional exponent part `[eE][+-]?[0-9]+`; result is (negative?, digits, rest). -/
def parseExpPart (cs : List Char) : Option (Bool × List Char × List Char) :=
  match cs with
  | c :: r =>
    if c = 'e' || c = 'E' then
      let p : Bool × List Char :=
        match r with
        | s :: r2 => if s = '+' then (false, r2) else if s = '-' then (true, r2) else (false, r)
        | [] => (false, [])
      let ds := p.2.takeWhile Char.isDigit
      if ds.isEmpty then none else some (p.1, ds, p.2.dropWhile Char.isDigit)
    else some (false, [], cs)
  | [] => some (false, [], [])

def jsonNumVal (neg : Bool) (intDs fracDs : List Char) (expNeg : Bool) (expDs : List Char) : ℚ :=
  let mant : ℚ :=
    (digitsVal intDs : ℚ) +
      (if fracDs.isEmpty then 0 else (digitsVal fracDs : ℚ) / ((10 : ℚ) ^ fracDs.length))
  let e := digitsVal expDs
  let scaled := if expNeg then mant / (10 : ℚ) ^ e else mant * (10 : ℚ) ^ e
  if neg then -scaled else scaled

/-- JSON number `-?(0|[1-9][0-9]*)(.[0-9]+)?([eE][+-]?[0-9]+)?`, exact value. -/
def parseNumber (cs : List Char) : Option (ℚ × List Char) :=
  let p : Bool × List Char :=
    match cs with
    | c :: r => if c = '-' then (true, r) else (false, cs)
    | [] => (false, cs)
  match p.2 with
  | [] => none
  | c :: rest =>
    if c.isDigit then
      let ip : List Char × List Char :=
        if c = '0' then ([c], rest)
        else (p.2.takeWhile Char.isDigit, p.2.dropWhile Char.isDigit)
      match parseFrac ip.2 with
      | none => none
      | some (fracDs, cs3) =>
        match parseExpPart cs3 with
        | none => none
        | some (en, eds, cs4) => some (jsonNumVal p.1 ip.1 fracDs en eds, cs4)
    else none

mutual

/-- Recursive-descent JSON value parser (fueled); models `JSON.parse`. -/
def parseValue (fuel : Nat) (cs0 : List Char) : Option (Json × List Char) :=
  match fuel with
  | 0 => none
  | fuel + 1 =>
    let cs := cs0.dropWhile isJsonWs
    match cs with
    | [] => none
    | c :: rest =>
      if c = '"' then
        match parseStrChars (fuel + 1) rest with
        | some (out, rem) => some (.str (String.mk out), rem)
        | none => none
      else if c = Char.ofNat 123 then
        parseObjFirst fuel rest
      else if c = '[' then
        parseArrFirst fuel rest
      else if c = 't' then
        if rest.take 3 = ['r', 'u', 'e'] then some (.bool true, rest.drop 3) else none
      else if c = 'f' then
        if rest.take 4 = ['a', 'l', 's', 'e'] then some (.bool false, rest.drop 4) else none
      else if c = 'n' then
        if rest.take 3 = ['u', 'l', 'l'] then some (.null, rest.drop 3) else none
      else
        (parseNumber cs).map (fun p => (.num p.1, p.2))

/-- After `[`: empty array or first element. -/
def parseArrFirst (fuel : Nat) (cs0 : List Char) : Option (Json × List Char) :=
  match fuel with
  | 0 => none
  | fuel + 1 =>
    let cs := cs0.dropWhile isJsonWs
    match cs with
    | [] => none
    | c :: rest =>
      if c = ']' then some (.arr [], rest)
      else
        match parseValue fuel cs with
        | some (v, r) => parseArrLoop fuel r [v]
        | none => none

/-- After an array element: `,` then next element, or `]`. -/
def parseArrLoop (fuel : Nat) (cs0 : List Char) (acc : List Json) : Option (Json × List Char) :=
  match fuel with
  | 0 => none
  | fuel + 1 =>
    let cs := cs0.dropWhile isJsonWs
    match cs with
    | [] => none
    | c :: rest =>
      if c = ',' then
        match parseValue fuel rest with
        | some (v, r) => parseArrLoop fuel r (acc ++ [v])
        | none => none
      else if c = ']' then some (.arr acc, rest)
      else none

/-- After the left brace: empty object or first key/value pair. -/
def parseObjFirst (fuel : Nat) (cs0 : List Char) : Option (Json × List Char) :=
  match fuel with
  | 0 => none
  | fuel + 1 =>
    let cs := cs0.dropWhile isJsonWs
    match cs with
    | [] => none
    | c :: _ =>
      if c = Char.ofNat 125 then some (.obj [], cs.tail)
      else parseObjPair fuel cs []

/-- One `"key" : value` pair, then the separator loop. -/
def parseObjPair (fuel : Nat) (cs0 : List Char) (acc : List (String × Json)) :
    Option (Json × List Char) :=
  match fuel with
  | 0 => none
  | fuel + 1 =>
    let cs := cs0.dropWhile isJsonWs
    match cs with
    | [] => none
    | c :: rest =>
      if c = '"' then
        match parseStrChars (fuel + 1) rest with
        | some (key, r1) =>
          let r2 := r1.dropWhile isJsonWs
          match r2 with
          | ':' :: r3 =>
            match parseValue fuel r3 with
            | some (v, r4) => parseObjLoop fuel r4 (acc ++ [(String.mk key, v)])
            | none => none
          | _ => none
        | none => none
      else none

/-- After a pair: `,` then next pair, or the right brace. -/
def parseObjLoop (fuel : Nat) (cs0 : List Char) (acc : List (String × Json)) :
    Option (Json × List Char) :=
  match fuel with
  | 0 => none
  | fuel + 1 =>
    let cs := cs0.dropWhile isJsonWs
    match cs with
    | [] => none
    | c :: rest =>
      if c = ',' then parseObjPair fuel rest acc
      else if c = Char.ofNat 125 then some (.obj acc, rest)
      else none

end

/-- `JSON.parse`: a single JSON text, allowing surrounding whitespace,
rejecting trailing garbage.  `none` models a thrown `SyntaxError`. -/
def jsonParse (s : String) : Option Json :=
  let cs := s.toList
  match parseValue (8 * cs.length + 64) cs with
  | some (v, rem) => if (rem.dropWhile isJsonWs).isEmpty then some v else none
  | none => none

example : jsonParse "[\x7b\"symbol\":\"AAPL\",\"price\":225.3\x7d]" =
    some (.arr [.obj [("symbol", .str "AAPL"), ("price", .num (2253 / 10))]]) := by with_unfolding_all rfl

example : jsonParse "not json" = none := by with_unfolding_all rfl

example : jsonParse " [1, true, null, \"x\"] " =
    some (.arr [.num 1, .bool true, .null, .str "x"]) := by with_unfolding_all rfl

/-! ## Fenced-block and bracket extraction

Model of the quote-extraction logic in `src/services/geminiService.ts`,
lines 42-61:

* `text.match(r1) || text.match(r2)` where `r1` matches a ` ```json ... ``` `
  fence and `r2` any ` ``` ... ``` ` fence, each with the body as capture
  group 1, whitespace-trimmed by the surrounding lazy/greedy `\s*` pieces;
* if a fence matched with a non-empty group, `JSON.parse` it and on failure
  keep the default `[]` (the bracket fallback is NOT attempted in that case);
* only when no fence matched: take the substring from the first `[` to the
  last `]` (JavaScript `substring` swaps and clamps its endpoints) and
  `JSON.parse` it, keeping `[]` on failure.
-/

/-- The JavaScript regex class `\s` (ASCII part plus NBSP and BOM; the rarer
Unicode space code points do not occur in the inputs considered here). -/
def isRegexWs (c : Char) : Bool :=
  c = ' ' || c = '\t' || c = '\n' || c = '\r' ||
    c = Char.ofNat 11 || c = Char.ofNat 12 || c = Char.ofNat 160 || c = Char.ofNat 65279

/-- Strip `\s*` from both ends, as the capture `\s*([\s\S]*?)\s*` does. -/
def regexTrim (cs : List Char) : List Char :=
  ((cs.dropWhile isRegexWs).reverse.dropWhile isRegexWs).reverse

/-- Index of the first occurrence of `needle` in `hay` (JavaScript
`String.prototype.indexOf` restricted to found/not-found). -/
def firstIdxOf (needle : List Char) (hay : List Char) : Option Nat :=
  if needle.isPrefixOf hay then some 0
  else
    match hay with
    | [] => none
    | _ :: t => (firstIdxOf needle t).map (· + 1)

/-- JavaScript `hay.includes(needle)`. -/
def strIncludes (hay needle : String) : Bool :=
  (firstIdxOf needle.toList hay.toList).isSome

/-- Capture group of the first full match of ``/```json\s*([\s\S]*?)\s*```/``:
the leftmost occurrence of the literal ` ```json ` that is followed by a
closing ` ``` `; the group is the trimmed text in between. -/
def fenceJsonGroup (text : String) : Option String :=
  let cs := text.toList
  match firstIdxOf ("```json".toList) cs with
  | none => none
  | some i =>
    let body := cs.drop (i + 7)
    match firstIdxOf ("```".toList) body with
    | none => none
    | some j => some (String.mk (regexTrim (body.take j)))

/-- Capture group of the first full match of ``/```\s*([\s\S]*?)\s*```/``. -/
def fenceAnyGroup (text : String) : Option String :=
  let cs := text.toList
  match firstIdxOf ("```".toList) cs with
  | none => none
  | some i =>
    let body := cs.drop (i + 3)
    match firstIdxOf ("```".toList) body with
    | none => none
    | some j => some (String.mk (regexTrim (body.take j)))

/-- `text.match(jsonFence) || text.match(anyFence)`, projected to group 1. -/
def fencedGroup (text : String) : Option String :=
  match fenceJsonGroup text with
  | some g => some g
  | none => fenceAnyGroup text

/-- `text.substring(text.indexOf('[') , text.lastIndexOf(']') + 1)`;
JavaScript `substring` swaps its endpoints when `start > end` and clamps
them to the string length. -/
def bracketSlice (text : String) : Option String :=
  let cs := text.toList
  match firstIdxOf ['['] cs, (firstIdxOf [']'] cs.reverse).map (fun k => cs.length - 1 - k) with
  | some st, some en =>
    let lo := min st (en + 1)
    let hi := max st (en + 1)
    some (String.mk ((cs.take hi).drop lo))
  | _, _ => none

/-- The `else` branch of the extraction: bracket slice then `JSON.parse`,
with the caught-exception default `[]`. -/
def bracketFallback (text : String) : Json :=
  match bracketSlice text with
  | some sub =>
    match jsonParse sub with
    | some v => v
    | none => Json.arr []
  | none => Json.arr []

/-- `prices` as computed by `fetchCurrentStockPrices` from the raw response
text (src/services/geminiService.ts lines 42-61).  Note the asymmetry taken
verbatim from the source: when a fence matched with a non-empty group but its
body is not valid JSON, the result is the default `[]` — the bracket fallback
runs only when no fence matched (or the group was empty, which JavaScript
treats as falsy). -/
def extractPrices (text : String) : Json :=
  match fencedGroup text with
  | some g =>
    if g = "" then bracketFallback text
    else
      match jsonParse g with
      | some v => v
      | none => Json.arr []
  | none => bracketFallback text

example : extractPrices "```json\n[\x7b\"symbol\":\"AAPL\",\"price\":225.3\x7d]\n```" =
    .arr [.obj [("symbol", .str "AAPL"), ("price", .num (2253 / 10))]] := by
  with_unfolding_all rfl

example : extractPrices "noise [ \x7b\"symbol\":\"2330.TW\",\"price\":980.5\x7d ] trailing" =
    .arr [.obj [("symbol", .str "2330.TW"), ("price", .num (9805 / 10))]] := by
  with_unfolding_all rfl

example : extractPrices "no structured data here" = .arr [] := by with_unfolding_all rfl

/-! ## The price-lookup call

`fetchCurrentStockPrices` (src/services/geminiService.ts lines 6-69): an
empty symbol list short-circuits to empty results before the network call;
otherwise the external call either throws (the function re-throws after
logging) or yields a response whose text is fed to the extraction above and
whose grounding chunks are filtered into citation sources. -/

structure WebInfo where
  uri : Option String
  title : Option String

structure GroundingChunk where
  web : Option WebInfo

structure GroundingSource where
  title : String
  url : String
deriving DecidableEq

/-- `chunks.forEach(...)`: a chunk is kept iff `chunk.web?.uri` and
`chunk.web?.title` are both truthy (present and non-empty). -/
def sourcesOf (chunks : List GroundingChunk) : List GroundingSource :=
  chunks.filterMap (fun c =>
    match c.web with
    | some w =>
      match w.uri, w.title with
      | some u, some t => if u ≠ "" && t ≠ "" then some ⟨t, u⟩ else none
      | _, _ => none
    | none => none)

/-- The response of the external Price Lookup Service, as consumed by the
function: `response.text || ""` and the grounding chunks. -/
structure ServiceResponse where
  text : String
  chunks : List GroundingChunk

/-- `fetchCurrentStockPrices(symbols)`; the external call is passed in as an
`Except` oracle (`.error` models the `generateContent` promise rejecting).
The mutable `prices`/`sources` locals become the returned pair. -/
def fetchCurrentStockPrices (symbols : List String)
    (service : Except Unit ServiceResponse) : Except Unit (Json × List GroundingSource) :=
  if symbols = [] then .ok (.arr [], [])
  else
    match service with
    | .error e => .error e
    | .ok resp => .ok (extractPrices resp.text, sourcesOf resp.chunks)

/-! ## Symbol matching and the price-sync coordinator

`handleUpdateStocks` (src/App.tsx lines 186-220) has two data paths:

* demo mode (line 196): `prices.find(x => x.symbol === s.symbol)` — exact,
  case-sensitive;
* persisted mode (line 202): `prices.find(p =>
  p.symbol.toLowerCase() === stock.symbol.toLowerCase() ||
  p.symbol.includes(stock.symbol))` — case-insensitive equality or
  case-sensitive containment of the holding symbol in the quote symbol,
  single pass, first satisfying quote wins.

The typed versions below act on well-formed quotes (string symbol, numeric
price); the `Json`-level demo coordinator further down keeps the JavaScript
dynamic behaviour (property access on `null` throws). -/

structure Quote where
  symbol : String
  price : ℚ
deriving DecidableEq

structure StockHolding where
  symbol : String
  name : String
  quantity : ℚ
  averageCost : ℚ
  currentPrice : ℚ
  lastUpdated : Option String
deriving DecidableEq

/-- Demo-mode matcher: `prices.find(x => x.symbol === s.symbol)`. -/
def demoMatch (prices : List Quote) (sym : String) : Option Quote :=
  prices.find? (fun x => x.symbol == sym)

/-- Persisted-mode matcher predicate (the `find` callback on line 202). -/
def persistedMatchPred (sym : String) (p : Quote) : Bool :=
  (p.symbol.toLower == sym.toLower) || strIncludes p.symbol sym

/-- Persisted-mode matcher: single `find` pass over the parsed quotes. -/
def persistedMatch (prices : List Quote) (sym : String) : Option Quote :=
  prices.find? (persistedMatchPred sym)

/-- Demo-mode holding refresh: matched holdings get the quote price and a
fresh `lastUpdated`; unmatched holdings are returned unchanged. -/
def demoUpdateStocks (stocks : List StockHolding) (prices : List Quote)
    (now : String) : List StockHolding :=
  stocks.map (fun s =>
    match demoMatch prices s.symbol with
    | some p => { s with currentPrice := p.price, lastUpdated := some now }
    | none => s)

/-- Persisted-mode holding refresh (`updateDoc` per matched holding). -/
def persistedUpdateStocks (stocks : List StockHolding) (prices : List Quote)
    (now : String) : List StockHolding :=
  stocks.map (fun s =>
    match persistedMatch prices s.symbol with
    | some u => { s with currentPrice := u.price, lastUpdated := some now }
    | none => s)

/-! ### The demo coordinator over raw parsed values

`prices` arrives straight from `JSON.parse` with no validation, so the
coordinator sees arbitrary JSON values.  JavaScript specifics kept by the
model: `prices.length > 0` is false for values with no `length` property;
`x.symbol` throws a `TypeError` when `x` is `null`; a thrown error is caught
by the surrounding `try` and surfaced as the alert, leaving the stocks state
untouched. -/

structure JsHolding where
  symbol : String
  name : String
  quantity : ℚ
  averageCost : ℚ
  currentPrice : Option Json
  lastUpdated : Option String

/-- `x.symbol === s.symbol` on a parsed array element. -/
def demoElemMatches (x : Json) (sym : String) : Except Unit Bool :=
  match x with
  | .null => .error ()
  | .obj fs =>
    match lookupField fs "symbol" with
    | some (.str t) => .ok (t == sym)
    | _ => .ok false
  | _ => .ok false

/-- `prices.find(x => x.symbol === s.symbol)` over parsed array elements. -/
def demoFindJs (l : List Json) (sym : String) : Except Unit (Option Json) :=
  match l with
  | [] => .ok none
  | x :: xs =>
    match demoElemMatches x sym with
    | .error e => .error e
    | .ok true => .ok (some x)
    | .ok false => demoFindJs xs sym

/-- `p ? { ...s, currentPrice: p.price, lastUpdated: now } : s`. -/
def demoUpdateJs (l : List Json) (now : String) (s : JsHolding) : Except Unit JsHolding :=
  match demoFindJs l s.symbol with
  | .error e => .error e
  | .ok (some x) =>
    .ok { s with
          currentPrice := (match x with | .obj fs => lookupField fs "price" | _ => none),
          lastUpdated := some now }
  | .ok none => .ok s

/-- `stocks.map(...)` over the demo refresh, propagating a thrown error. -/
def demoMapJs (stocks : List JsHolding) (l : List Json) (now : String) :
    Except Unit (List JsHolding) :=
  match stocks with
  | [] => .ok []
  | s :: ss =>
    match demoUpdateJs l now s with
    | .error e => .error e
    | .ok s2 =>
      match demoMapJs ss l now with
      | .error e => .error e
      | .ok ss2 => .ok (s2 :: ss2)

/-! ### The test `prices.length > 0` with JavaScript semantics

Arrays and strings carry a numeric `length`; `null.length` throws a
TypeError (caught by the surrounding `try`, hence the alert); primitive
numbers and booleans box to wrapper objects without a `length`, so the
comparison is `undefined > 0`, i.e. false; a plain object contributes its
own `length` property, if present, compared to `0` after ToNumber
coercion. -/

/-- A JavaScript number as needed by the `> 0` comparison: NaN, a signed
infinity, or a finite value. -/
inductive JsNum where
  | nan : JsNum
  | posInf : JsNum
  | negInf : JsNum
  | val (q : ℚ) : JsNum

/-- `n > 0` on a JavaScript number (`NaN > 0` is false). -/
def jsNumGtZero : JsNum → Bool
  | .posInf => true
  | .val q => decide (0 < q)
  | _ => false

/-- Exponent tail `([eE][+-]?[0-9]+)?` of a string numeric literal; the
whole remaining text must be consumed.  Result is (negative?, digits). -/
def expTail : List Char → Option (Bool × List Char)
  | [] => some (false, [])
  | c :: r =>
    if c = 'e' || c = 'E' then
      let p : Bool × List Char :=
        match r with
        | s :: r2 => if s = '+' then (false, r2) else if s = '-' then (true, r2) else (false, r)
        | [] => (false, [])
      let ds := p.2.takeWhile Char.isDigit
      if ds.isEmpty then none
      else if (p.2.dropWhile Char.isDigit).isEmpty then some (p.1, ds) else none
    else none

/-- ECMAScript `StrUnsignedDecimalLiteral` without the `Infinity` case:
`[0-9]+(.[0-9]*)?`, `.[0-9]+`, with an optional exponent; unlike JSON it
allows `.5`, `5.` and leading zeros.  The entire text must match. -/
def decLitToNum (t : List Char) : Option ℚ :=
  let intDs := t.takeWhile Char.isDigit
  let r1 := t.dropWhile Char.isDigit
  match r1 with
  | '.' :: r2 =>
    let fracDs := r2.takeWhile Char.isDigit
    let r3 := r2.dropWhile Char.isDigit
    if intDs.isEmpty && fracDs.isEmpty then none
    else
      match expTail r3 with
      | some (en, eds) => some (jsonNumVal false intDs fracDs en eds)
      | none => none
  | _ =>
    if intDs.isEmpty then none
    else
      match expTail r1 with
      | some (en, eds) => some (jsonNumVal false intDs [] en eds)
      | none => none

/-- A signed `StrUnsignedDecimalLiteral`: `Infinity` or a decimal literal;
anything else is NaN. -/
def jsUnsignedDec (neg : Bool) (t : List Char) : JsNum :=
  if t = "Infinity".toList then (if neg then .negInf else .posInf)
  else
    match decLitToNum t with
    | some q => .val (if neg then -q else q)
    | none => .nan

def octVal (c : Char) : Option Nat :=
  if '0' ≤ c && c ≤ '7' then some (c.toNat - 48) else none

def binVal (c : Char) : Option Nat :=
  if c = '0' || c = '1' then some (c.toNat - 48) else none

/-- A non-decimal integer literal body (after `0x`/`0o`/`0b`): all digits of
the base, at least one. -/
def radixNum (valOf : Char → Option Nat) (base : Nat) (ds : List Char) : JsNum :=
  if !ds.isEmpty && ds.all (fun d => (valOf d).isSome) then
    .val ((ds.foldl (fun a d => a * base + ((valOf d).getD 0)) 0 : Nat) : ℚ)
  else .nan

/-- ECMAScript `StringToNumber`: strip whitespace; empty means `0`; a sign
admits only a decimal literal or `Infinity`; an unsigned text may also be a
`0x`/`0o`/`0b` integer; everything else is NaN. -/
def jsStrToNumber (s : String) : JsNum :=
  match regexTrim s.toList with
  | [] => .val 0
  | '+' :: r => jsUnsignedDec false r
  | '-' :: r => jsUnsignedDec true r
  | '0' :: c :: r =>
    if c = 'x' || c = 'X' then radixNum hexVal 16 r
    else if c = 'o' || c = 'O' then radixNum octVal 8 r
    else if c = 'b' || c = 'B' then radixNum binVal 2 r
    else jsUnsignedDec false ('0' :: c :: r)
  | t => jsUnsignedDec false t

/-- ToNumber of an array: it coerces through its `join(",")` string, so two
or more elements always yield NaN (a comma never occurs in a numeric
literal), the empty array is `""` (→ 0), and a singleton coerces to its
element's display string — whose numeric value equals the element's own
numeric value for numbers (number→string→number round-trips), is
`StringToNumber` for strings, `""` (→ 0) for `null`, and NaN for booleans
(`"true"`/`"false"`) and objects (`"[object Object]"`). -/
def jsArrToNumber : List Json → JsNum
  | [] => .val 0
  | [x] =>
    match x with
    | .null => .val 0
    | .num q => .val q
    | .str s => jsStrToNumber s
    | .bool _ => .nan
    | .obj _ => .nan
    | .arr l => jsArrToNumber l
  | _ :: _ :: _ => .nan

/-- ECMAScript ToNumber on a parsed JSON value. -/
def jsToNumber : Json → JsNum
  | .null => .val 0
  | .bool b => .val (if b then 1 else 0)
  | .num q => .val q
  | .str s => jsStrToNumber s
  | .obj _ => .nan
  | .arr l => jsArrToNumber l

/-- `prices.length > 0` (src/App.tsx line 193): `.error` models the
TypeError thrown by `null.length`; otherwise the boolean outcome of the
comparison, reading a plain object's own `length` property when present
(`undefined > 0` is false when it is absent, as for numbers and
booleans). -/
def jsLenCheck : Json → Except Unit Bool
  | .null => .error ()
  | .arr l => .ok (decide (0 < l.length))
  | .str s => .ok (decide (0 < s.length))
  | .num _ => .ok false
  | .bool _ => .ok false
  | .obj fs =>
    .ok (match lookupField fs "length" with
         | none => false
         | some v => jsNumGtZero (jsToNumber v))

structure SyncResult where
  stocks : List JsHolding
  alerted : Bool
  sources : List GroundingSource

/-- `handleUpdateStocks` (src/App.tsx lines 186-220), demo-mode data path.
The fetch outcome is passed in; `.error` models the awaited
`fetchCurrentStockPrices` promise rejecting.  `alerted` records whether the
`catch` branch ran (the single user-visible alert); on that path
`setStockSources` keeps the `[]` set at entry.  A throwing length test
(`prices` is `null`) and a passing length test on a non-array (non-empty
string, object with a truthy `length` property — `prices.find` is not a
function) both end in the catch branch. -/
def handleUpdateStocksDemo (stocks : List JsHolding) (now : String)
    (fetched : Except Unit (Json × List GroundingSource)) : SyncResult :=
  match fetched with
  | .error _ => ⟨stocks, true, []⟩
  | .ok (prices, srcs) =>
    match jsLenCheck prices with
    | .error _ => ⟨stocks, true, []⟩
    | .ok false => ⟨stocks, false, srcs⟩
    | .ok true =>
      match prices with
      | .arr l =>
        match demoMapJs stocks l now with
        | .ok newStocks => ⟨newStocks, false, srcs⟩
        | .error _ => ⟨stocks, true, []⟩
      | _ => ⟨stocks, true, []⟩

/-! ## The transaction ledger

`handleSaveTransaction` and `deleteTransaction` (src/App.tsx lines 239-299),
demo-mode branch: the in-memory lists of accounts and transactions are the
state.  The persisted branch performs the same balance arithmetic through
`updateDoc`.  Amounts are exact rationals. -/

inductive TxType where
  | income : TxType
  | expense : TxType
deriving DecidableEq

structure Tx where
  id : String
  accountId : String
  amount : ℚ
  type : TxType
  category : String
  date : String
  description : String
deriving DecidableEq

structure Account where
  id : String
  name : String
  type : String
  balance : ℚ
  currency : String
deriving DecidableEq

structure LedgerState where
  accounts : List Account
  transactions : List Tx
deriving DecidableEq

/-- `tx.type === 'Income' ? amount : -amount`. -/
def signedAmount (t : Tx) : ℚ :=
  match t.type with
  | .income => t.amount
  | .expense => -t.amount

/-- `accounts.findIndex(a => a.id === aid)` followed by an in-place
`balance += delta` on the found element: the first account with the given id
gets the delta, everything else is untouched. -/
def updateFirstBalance (accs : List Account) (aid : String) (delta : ℚ) : List Account :=
  match accs with
  | [] => []
  | a :: rest =>
    if a.id = aid then { a with balance := a.balance + delta } :: rest
    else a :: updateFirstBalance rest aid delta

/-- The guard `if (newTx.amount && newTx.accountId && newTx.category)`:
JavaScript truthiness of a number and two strings. -/
def txTruthy (tx : Tx) : Bool :=
  (tx.amount != 0) && (tx.accountId != "") && (tx.category != "")

/-- `handleSaveTransaction` (lines 239-274): on a truthy form, prepend the
transaction and add the signed amount to the (first) matching account; on a
falsy form do nothing, silently. -/
def handleSaveTransaction (s : LedgerState) (tx : Tx) : LedgerState :=
  if txTruthy tx then
    { accounts := updateFirstBalance s.accounts tx.accountId (signedAmount tx),
      transactions := tx :: s.transactions }
  else s

/-- `deleteTransaction` (lines 276-299): drop every transaction with the
given id and subtract the signed amount from the (first) matching account —
unconditionally, with no check that the transaction is currently applied. -/
def deleteTransaction (s : LedgerState) (t : Tx) : LedgerState :=
  { accounts := updateFirstBalance s.accounts t.accountId (-(signedAmount t)),
    transactions := s.transactions.filter (fun tr => tr.id != t.id) }

/-- The UI-triggerable ledger mutations. -/
inductive LedgerOp where
  | save (tx : Tx) : LedgerOp
  | del (t : Tx) : LedgerOp

def runOp (s : LedgerState) : LedgerOp → LedgerState
  | .save tx => handleSaveTransaction s tx
  | .del t => deleteTransaction s t

def runOps (s : LedgerState) (ops : List LedgerOp) : LedgerState :=
  ops.foldl runOp s

/-- Operation sequences as the UI can actually issue them: a delete button
exists only for a transaction currently in the rendered list (line 519
passes the row's own `t`), and new transactions get a fresh random id. -/
def uiLegal (s : LedgerState) : List LedgerOp → Bool
  | [] => true
  | .save tx :: rest =>
    !((s.transactions.map Tx.id).contains tx.id) && uiLegal (runOp s (.save tx)) rest
  | .del t :: rest =>
    s.transactions.contains t && uiLegal (runOp s (.del t)) rest

/-- Signed sum of the transactions referencing an account. -/
def signedSumFor (txs : List Tx) (aid : String) : ℚ :=
  ((txs.filter (fun t => t.accountId == aid)).map signedAmount).sum

/-- Opening balance assignment (association list, absent accounts open at 0). -/
def openingOf (opening : List (String × ℚ)) (aid : String) : ℚ :=
  (((opening.find? (fun p => p.1 == aid)).map (fun p => p.2)).getD 0)

/-- Ledger-integrity invariant of spec §3: every account's cached balance is
its opening balance plus the signed sum of the transactions referencing it. -/
def ledgerOk (opening : List (String × ℚ)) (s : LedgerState) : Prop :=
  ∀ a ∈ s.accounts, a.balance = openingOf opening a.id + signedSumFor s.transactions a.id

instance (opening : List (String × ℚ)) (s : LedgerState) : Decidable (ledgerOk opening s) := by
  unfold ledgerOk; infer_instance

/-- Well-formed store state: document ids are unique per collection. -/
def ledgerWF (s : LedgerState) : Prop :=
  (s.accounts.map Account.id).Nodup ∧ (s.transactions.map Tx.id).Nodup

instance (s : LedgerState) : Decidable (ledgerWF s) := by
  unfold ledgerWF; infer_instance

/-! ## Ledger lemmas -/

theorem updateFirstBalance_map_id (accs : List Account) (aid : String) (d : ℚ) :
    (updateFirstBalance accs aid d).map Account.id = accs.map Account.id := by
  induction accs with
  | nil => rfl
  | cons a rest ih =>
    by_cases h : a.id = aid <;> simp [updateFirstBalance, h, ih]

theorem updateFirstBalance_comp (accs : List Account) (aid : String) (d d' : ℚ) :
    updateFirstBalance (updateFirstBalance accs aid d) aid d' =
      updateFirstBalance accs aid (d + d') := by
  induction accs with
  | nil => rfl
  | cons a rest ih =>
    by_cases h : a.id = aid
    · simp [updateFirstBalance, h, add_assoc]
    · simp [updateFirstBalance, h, ih]

theorem updateFirstBalance_zero (accs : List Account) (aid : String) :
    updateFirstBalance accs aid 0 = accs := by
  induction accs with
  | nil => rfl
  | cons a rest ih =>
    rw [updateFirstBalance]
    by_cases h : a.id = aid
    · rw [if_pos h, add_zero]
    · rw [if_neg h, ih]

theorem updateFirstBalance_invariant (f g : String → ℚ) (aid : String) (d : ℚ) :
    ∀ accs : List Account, (accs.map Account.id).Nodup →
      (∀ a ∈ accs, a.balance = f a.id) →
      (∀ b, b ≠ aid → g b = f b) →
      g aid = f aid + d →
      ∀ a ∈ updateFirstBalance accs aid d, a.balance = g a.id := by
  intro accs
  induction accs with
  | nil => intro _ _ _ _ a ha; simp [updateFirstBalance] at ha
  | cons a rest ih =>
    intro hnd hinv hgf hgd b hb
    have hnd' : (∀ x ∈ rest, ¬ x.id = a.id) ∧ (rest.map Account.id).Nodup := by
      simpa using hnd
    by_cases h : a.id = aid
    · rw [updateFirstBalance, if_pos h] at hb
      rcases List.mem_cons.mp hb with rfl | hb'
      · have hba : a.balance = f a.id := hinv a (List.mem_cons_self a rest)
        simp [hba, h, hgd]
      · have hbid : b.id ≠ aid := fun hcon => hnd'.1 b hb' (hcon.trans h.symm)
        rw [hgf b.id hbid]
        exact hinv b (List.mem_cons_of_mem a hb')
    · rw [updateFirstBalance, if_neg h] at hb
      rcases List.mem_cons.mp hb with rfl | hb'
      · rw [hgf b.id h]
        exact hinv b (List.mem_cons_self b rest)
      · exact ih hnd'.2 (fun x hx => hinv x (List.mem_cons_of_mem a hx)) hgf hgd b hb'

theorem signedSumFor_cons (tx : Tx) (txs : List Tx) (aid : String) :
    signedSumFor (tx :: txs) aid =
      (if tx.accountId = aid then signedAmount tx else 0) + signedSumFor txs aid := by
  by_cases h : tx.accountId = aid <;> simp [signedSumFor, List.filter_cons, h]

theorem filter_ne_id_of_not_mem (i : String) :
    ∀ txs : List Tx, (∀ x ∈ txs, x.id ≠ i) → txs.filter (fun tr => tr.id != i) = txs := by
  intro txs
  induction txs with
  | nil => intro _; rfl
  | cons t rest ih =>
    intro h
    have ht : t.id ≠ i := h t (List.mem_cons_self t rest)
    simp [List.filter_cons, ht, ih (fun x hx => h x (List.mem_cons_of_mem t hx))]

theorem signedSumFor_remove (t : Tx) (aid : String) :
    ∀ txs : List Tx, (txs.map Tx.id).Nodup → t ∈ txs →
      signedSumFor (txs.filter (fun tr => tr.id != t.id)) aid +
        (if t.accountId = aid then signedAmount t else 0) = signedSumFor txs aid := by
  intro txs
  induction txs with
  | nil => intro _ h; cases h
  | cons x rest ih =>
    intro hnd hmem
    have hnd' : (∀ y ∈ rest, ¬ y.id = x.id) ∧ (rest.map Tx.id).Nodup := by
      simpa using hnd
    rcases List.mem_cons.mp hmem with rfl | hmem'
    · have hrest : ∀ y ∈ rest, y.id ≠ t.id := hnd'.1
      rw [List.filter_cons]
      simp only [bne_self_eq_false, Bool.false_eq_true, if_false, cond_false]
      rw [filter_ne_id_of_not_mem t.id rest hrest, signedSumFor_cons]
      ring
    · have hx : x.id ≠ t.id := fun hcon => hnd'.1 t hmem' (hcon.symm)
      rw [List.filter_cons]
      simp only [bne_iff_ne, ne_eq, hx, not_false_eq_true, if_true, cond_true]
      rw [signedSumFor_cons, signedSumFor_cons, ← ih hnd'.2 hmem']
      ring

theorem save_preserves_ok (o : List (String × ℚ)) (s : LedgerState) (tx : Tx)
    (hwf : ledgerWF s) (hok : ledgerOk o s) :
    ledgerOk o (handleSaveTransaction s tx) := by
  unfold handleSaveTransaction
  by_cases h : txTruthy tx = true
  · rw [if_pos h]
    intro a ha
    refine updateFirstBalance_invariant
      (fun b => openingOf o b + signedSumFor s.transactions b)
      (fun b => openingOf o b + signedSumFor (tx :: s.transactions) b)
      tx.accountId (signedAmount tx) s.accounts hwf.1 hok ?_ ?_ a ha
    · intro b hb
      show openingOf o b + signedSumFor (tx :: s.transactions) b =
        openingOf o b + signedSumFor s.transactions b
      rw [signedSumFor_cons, if_neg (fun hc => hb hc.symm), zero_add]
    · show openingOf o tx.accountId + signedSumFor (tx :: s.transactions) tx.accountId =
        openingOf o tx.accountId + signedSumFor s.transactions tx.accountId + signedAmount tx
      rw [signedSumFor_cons, if_pos rfl]
      ring
  · rw [if_neg h]
    exact hok

theorem delete_preserves_ok (o : List (String × ℚ)) (s : LedgerState) (t : Tx)
    (hwf : ledgerWF s) (hmem : t ∈ s.transactions) (hok : ledgerOk o s) :
    ledgerOk o (deleteTransaction s t) := by
  intro a ha
  refine updateFirstBalance_invariant
    (fun b => openingOf o b + signedSumFor s.transactions b)
    (fun b => openingOf o b +
      signedSumFor (s.transactions.filter (fun tr => tr.id != t.id)) b)
    t.accountId (-(signedAmount t)) s.accounts hwf.1 hok ?_ ?_ a ha
  · intro b hb
    have hre := signedSumFor_remove t b s.transactions hwf.2 hmem
    rw [if_neg (fun hc => hb hc.symm), add_zero] at hre
    show openingOf o b +
        signedSumFor (s.transactions.filter (fun tr => tr.id != t.id)) b =
      openingOf o b + signedSumFor s.transactions b
    rw [hre]
  · have hre := signedSumFor_remove t t.accountId s.transactions hwf.2 hmem
    rw [if_pos rfl] at hre
    show openingOf o t.accountId +
        signedSumFor (s.transactions.filter (fun tr => tr.id != t.id)) t.accountId =
      openingOf o t.accountId + signedSumFor s.transactions t.accountId + -signedAmount t
    linarith

theorem save_preserves_wf (s : LedgerState) (tx : Tx) (hwf : ledgerWF s)
    (hfresh : tx.id ∉ s.transactions.map Tx.id) :
    ledgerWF (handleSaveTransaction s tx) := by
  unfold handleSaveTransaction
  by_cases h : txTruthy tx = true
  · rw [if_pos h]
    refine ⟨?_, ?_⟩
    · show ((updateFirstBalance s.accounts tx.accountId (signedAmount tx)).map
        Account.id).Nodup
      rw [updateFirstBalance_map_id]
      exact hwf.1
    · show ((tx :: s.transactions).map Tx.id).Nodup
      have hfresh' : ∀ x ∈ s.transactions, ¬ x.id = tx.id := by
        intro x hx hcon
        exact hfresh (by rw [← hcon]; exact List.mem_map_of_mem Tx.id hx)
      simpa [List.nodup_cons] using ⟨hfresh', hwf.2⟩
  · rw [if_neg h]
    exact hwf

theorem delete_preserves_wf (s : LedgerState) (t : Tx) (hwf : ledgerWF s) :
    ledgerWF (deleteTransaction s t) := by
  refine ⟨?_, ?_⟩
  · show ((updateFirstBalance s.accounts t.accountId (-(signedAmount t))).map
      Account.id).Nodup
    rw [updateFirstBalance_map_id]
    exact hwf.1
  · exact hwf.2.sublist ((List.filter_sublist _).map Tx.id)

theorem runOps_preserves (o : List (String × ℚ)) :
    ∀ (ops : List LedgerOp) (s : LedgerState), ledgerWF s → uiLegal s ops = true →
      ledgerOk o s → ledgerWF (runOps s ops) ∧ ledgerOk o (runOps s ops) := by
  intro ops
  induction ops with
  | nil => intro s hwf _ hok; exact ⟨hwf, hok⟩
  | cons op rest ih =>
    intro s hwf hleg hok
    cases op with
    | save tx =>
      rw [uiLegal, Bool.and_eq_true] at hleg
      have hfresh : tx.id ∉ s.transactions.map Tx.id := by
        have := hleg.1
        simpa using this
      exact ih (handleSaveTransaction s tx)
        (save_preserves_wf s tx hwf hfresh) hleg.2
        (save_preserves_ok o s tx hwf hok)
    | del t =>
      rw [uiLegal, Bool.and_eq_true] at hleg
      have hmem : t ∈ s.transactions := by
        have := hleg.1
        simpa using this
      exact ih (deleteTransaction s t)
        (delete_preserves_wf s t hwf) hleg.2
        (delete_preserves_ok o s t hwf hmem hok)

/-! ## Concrete ledger fixtures -/

def acct1 : Account := ⟨"1", "CTBC Main", "Bank", 100, "TWD"⟩

def state1 : LedgerState := ⟨[acct1], []⟩

def opening1 : List (String × ℚ) := [("1", 100)]

def txIncome : Tx := ⟨"t1", "1", 10, .income, "Salary", "2023-10-05", "October Salary"⟩

def txExpense : Tx := ⟨"t2", "1", 25, .expense, "Food", "2023-10-06", "Dinner"⟩

def txZero : Tx := ⟨"t3", "1", 0, .expense, "Food", "2023-10-06", "zero amount"⟩

def txNeg : Tx := ⟨"t4", "1", -5, .expense, "Food", "2023-10-06", "negative amount"⟩

def txGhost : Tx := ⟨"t9", "1", 5, .income, "Salary", "2023-10-07", "never applied"⟩

/-- First-match read of an account balance, as `accounts.find(a => a.id === aid)`. -/
def balanceOf (s : LedgerState) (aid : String) : Option ℚ :=
  (s.accounts.find? (fun a => a.id == aid)).map Account.balance

theorem find?_updateFirstBalance (accs : List Account) (aid : String) (d : ℚ) :
    ((updateFirstBalance accs aid d).find? (fun a => a.id == aid)).map Account.balance =
      ((accs.find? (fun a => a.id == aid)).map Account.balance).map (· + d) := by
  induction accs with
  | nil => rfl
  | cons a rest ih =>
    by_cases h : a.id = aid
    · simp [updateFirstBalance, h, List.find?_cons]
    · simp [updateFirstBalance, List.find?_cons, h, ih]

/-! ## Claims about the transaction ledger -/

/-- Claim C1: for every account state and every valid transaction (one that
passes the save guard), applying the transaction via `handleSaveTransaction`
(+amount for Income, −amount for Expense) and then reverting it via
`deleteTransaction` restores every account balance — in particular the
target account's — exactly, decimal-exact over ℚ, regardless of the
transaction's type. -/
theorem c1_apply_then_revert_restores_balance (s : LedgerState) (tx : Tx)
    (h : txTruthy tx = true) :
    (deleteTransaction (handleSaveTransaction s tx) tx).accounts = s.accounts := by
  unfold handleSaveTransaction deleteTransaction
  rw [if_pos h]
  show updateFirstBalance (updateFirstBalance s.accounts tx.accountId (signedAmount tx))
      tx.accountId (-(signedAmount tx)) = s.accounts
  rw [updateFirstBalance_comp, add_neg_cancel, updateFirstBalance_zero]

/-- Concrete instance of C1: income of 10 on the 100 account. -/
theorem c1_apply_then_revert_restores_balance_witness :
    txTruthy txIncome = true ∧
      (deleteTransaction (handleSaveTransaction state1 txIncome) txIncome).accounts =
        state1.accounts :=
  ⟨by with_unfolding_all decide,
   c1_apply_then_revert_restores_balance state1 txIncome (by with_unfolding_all decide)⟩

/-- Claim C2: along any sequence of save/delete operations as the UI can
issue them (deletes refer to a transaction currently in the store; new
transactions carry fresh ids), every account's balance stays equal to its
opening balance plus the signed sum of the transactions currently
referencing it. -/
theorem c2_ledger_invariant_preserved (opening : List (String × ℚ)) (s : LedgerState)
    (ops : List LedgerOp) (hwf : ledgerWF s) (hleg : uiLegal s ops = true)
    (hok : ledgerOk opening s) : ledgerOk opening (runOps s ops) :=
  (runOps_preserves opening ops s hwf hleg hok).2

def demoOps : List LedgerOp :=
  [.save txIncome, .save txExpense, .del txExpense, .del txIncome]

/-- Concrete instance of C2: the spec §8 end-to-end scenario (apply income,
apply expense, revert both). -/
theorem c2_ledger_invariant_preserved_witness :
    (ledgerWF state1 ∧ uiLegal state1 demoOps = true ∧ ledgerOk opening1 state1) ∧
      ledgerOk opening1 (runOps state1 demoOps) :=
  ⟨⟨by decide, by with_unfolding_all decide, by with_unfolding_all decide⟩,
   c2_ledger_invariant_preserved opening1 state1 demoOps (by decide)
     (by with_unfolding_all decide) (by with_unfolding_all decide)⟩

/-- Claim C3 is false as stated: the transaction `txNeg` has amount −5,
which is not strictly positive, yet `handleSaveTransaction` does not reject
it — it appends the transaction and moves the balance (an Expense of −5
adds 5). -/
theorem c3_counterexample :
    (handleSaveTransaction state1 txNeg).transactions = [txNeg] ∧
      (handleSaveTransaction state1 txNeg).accounts =
        [⟨"1", "CTBC Main", "Bank", 105, "TWD"⟩] := by
  with_unfolding_all decide

/-- Claim C3 (amended): the save guard is JavaScript truthiness, not the
spec's validation — a submission is silently ignored (no error value, no
mutation) exactly when its amount is zero, its accountId is the empty
string, or its category is the empty string; any other submission is
accepted: the transaction is prepended and the signed amount is applied to
the first matching account (no account-existence or positivity check). -/
theorem c3_amended_guard_truthiness (s : LedgerState) (tx : Tx) :
    (txTruthy tx = false ↔ (tx.amount = 0 ∨ tx.accountId = "" ∨ tx.category = "")) ∧
      (txTruthy tx = false → handleSaveTransaction s tx = s) ∧
      (txTruthy tx = true →
        (handleSaveTransaction s tx).transactions = tx :: s.transactions ∧
          (handleSaveTransaction s tx).accounts =
            updateFirstBalance s.accounts tx.accountId (signedAmount tx)) := by
  refine ⟨?_, ?_, ?_⟩
  · unfold txTruthy
    simp [not_or]
    tauto
  · intro h
    unfold handleSaveTransaction
    rw [if_neg (by simp [h])]
  · intro h
    unfold handleSaveTransaction
    rw [if_pos h]
    exact ⟨rfl, rfl⟩

/-- Concrete instance of the amended C3: a zero amount is silently dropped,
a negative amount is accepted and appended. -/
theorem c3_amended_guard_truthiness_witness :
    handleSaveTransaction state1 txZero = state1 ∧
      (handleSaveTransaction state1 txNeg).transactions = txNeg :: state1.transactions :=
  ⟨(c3_amended_guard_truthiness state1 txZero).2.1 (by with_unfolding_all decide),
   ((c3_amended_guard_truthiness state1 txNeg).2.2 (by with_unfolding_all decide)).1⟩

/-- Claim C7 is false as stated: reverting `txGhost`, which was never
applied (the store holds no transactions at all), does not fail and does
not leave balances unchanged — the account is silently debited by the
signed amount. -/
theorem c7_counterexample :
    state1.transactions = [] ∧
      (deleteTransaction state1 txGhost).transactions = [] ∧
      (deleteTransaction state1 txGhost).accounts =
        [⟨"1", "CTBC Main", "Bank", 95, "TWD"⟩] ∧
      (deleteTransaction state1 txGhost).accounts ≠ state1.accounts := by
  with_unfolding_all decide

/-- Claim C7 (amended): `deleteTransaction` performs no applied-state check
and never fails: it removes every transaction with the given id and
unconditionally applies the inverse signed delta to the first matching
account.  In particular, reverting a transaction whose id is not in the
store (never applied, or already reverted) leaves the transaction
collection unchanged while still perturbing the referenced account's
balance. -/
theorem c7_amended_revert_unchecked (s : LedgerState) (t : Tx) (b : ℚ)
    (hid : ∀ tr ∈ s.transactions, tr.id ≠ t.id)
    (hacc : balanceOf s t.accountId = some b) :
    (deleteTransaction s t).transactions = s.transactions ∧
      balanceOf (deleteTransaction s t) t.accountId = some (b + -(signedAmount t)) := by
  constructor
  · show s.transactions.filter (fun tr => tr.id != t.id) = s.transactions
    exact filter_ne_id_of_not_mem t.id s.transactions hid
  · show ((updateFirstBalance s.accounts t.accountId (-(signedAmount t))).find?
        (fun a => a.id == t.accountId)).map Account.balance = some (b + -(signedAmount t))
    rw [find?_updateFirstBalance]
    rw [show (s.accounts.find? (fun a => a.id == t.accountId)).map Account.balance =
        some b from hacc]
    rfl

/-- Concrete instance of the amended C7: reverting the never-applied
`txGhost` keeps the (empty) transaction list but debits the account. -/
theorem c7_amended_revert_unchecked_witness :
    (deleteTransaction state1 txGhost).transactions = state1.transactions ∧
      balanceOf (deleteTransaction state1 txGhost) txGhost.accountId =
        some (100 + -(signedAmount txGhost)) :=
  c7_amended_revert_unchecked state1 txGhost 100 (by decide)
    (by with_unfolding_all decide)

/-! ## Claims about the parser pipeline -/

def c4text : String := "```json\nnot json\n``` [\x7b\"symbol\":\"A\",\"price\":1\x7d]"

/-- Claim C4 is the intended behaviour (the code even logs "Failed to parse
JSON, trying full text"), but the code does not do it: when a fenced block
is found and its body fails to parse, the result is the caught-exception
default `[]`; the bracket fallback — which here would succeed on the valid
array after the fence — is only reachable when no fence matched at all. -/
theorem c4_fenced_parse_failure_skips_bracket_fallback :
    fencedGroup c4text = some "not json" ∧
      extractPrices c4text = Json.arr [] ∧
      (bracketSlice c4text).bind jsonParse =
        some (Json.arr [Json.obj [("symbol", Json.str "A"), ("price", Json.num 1)]]) :=
  ⟨by with_unfolding_all rfl, by with_unfolding_all rfl, by with_unfolding_all rfl⟩

def c5text : String :=
  "```json\n[\x7b\"symbol\":\"X\",\"price\":1\x7d,\x7b\"symbol\":\"Y\"\x7d]\n```"

/-- Claim C5 is false: there is no entry-level validation — on the spec's
own test input the element without a `price` is kept, so the whole
two-element array comes back instead of only the valid quote. -/
theorem c5_counterexample :
    extractPrices c5text =
      Json.arr [Json.obj [("symbol", Json.str "X"), ("price", Json.num 1)],
        Json.obj [("symbol", Json.str "Y")]] := by
  with_unfolding_all rfl

/-- Claim C5 (amended): whatever value the non-empty fenced group parses to
is returned as-is — elements are not validated, invalid entries are kept,
and even a non-array value passes through unfiltered. -/
theorem c5_amended_no_entry_validation (text g : String) (v : Json)
    (hg : fencedGroup text = some g) (hne : g ≠ "") (hp : jsonParse g = some v) :
    extractPrices text = v := by
  unfold extractPrices
  rw [hg]
  simp only [if_neg hne, hp]

def c5textW : String := "```json\n[\x7b\"symbol\":\"Y\"\x7d, 7]\n```"

/-- Concrete instance of the amended C5: an entry without a price and a bare
number survive unfiltered. -/
theorem c5_amended_no_entry_validation_witness :
    extractPrices c5textW = Json.arr [Json.obj [("symbol", Json.str "Y")], Json.num 7] :=
  c5_amended_no_entry_validation c5textW "[\x7b\"symbol\":\"Y\"\x7d, 7]"
    (Json.arr [Json.obj [("symbol", Json.str "Y")], Json.num 7])
    (by with_unfolding_all rfl) (by decide) (by with_unfolding_all rfl)

/-- Claim C10: with an empty held-symbol list the lookup returns empty
prices and sources identically for every behaviour of the external service
(including a failing one), so the service is never consulted and no lookup
error can arise. -/
theorem c10_empty_symbols_short_circuit (service : Except Unit ServiceResponse) :
    fetchCurrentStockPrices [] service = .ok (Json.arr [], []) := rfl

/-- Concrete instance of C10: even a failing service call cannot produce an
error when no symbols are held. -/
theorem c10_empty_symbols_short_circuit_witness :
    fetchCurrentStockPrices [] (.error ()) = .ok (Json.arr [], []) :=
  c10_empty_symbols_short_circuit (.error ())

/-! ## Claims about the symbol matcher -/

theorem find?_first_split {α : Type} (p : α → Bool) :
    ∀ (l : List α) (a : α), l.find? p = some a →
      ∃ l1 l2, l = l1 ++ a :: l2 ∧ ∀ x ∈ l1, p x = false := by
  intro l
  induction l with
  | nil => intro a h; cases h
  | cons x xs ih =>
    intro a h
    by_cases hx : p x = true
    · rw [List.find?_cons_of_pos _ hx] at h
      cases h
      exact ⟨[], xs, rfl, by intro y hy; cases hy⟩
    · rw [List.find?_cons_of_neg _ (by simpa using hx)] at h
      obtain ⟨l1, l2, rfl, hl1⟩ := ih a h
      refine ⟨x :: l1, l2, rfl, ?_⟩
      intro y hy
      rcases List.mem_cons.mp hy with rfl | hy'
      · simpa using hx
      · exact hl1 y hy'

def qA : Quote := ⟨"AAPLX", 1⟩

def qB : Quote := ⟨"aapl", 2⟩

/-- Claim C6 is false: with quotes `[AAPLX, aapl]` and holding symbol
`AAPL`, a case-insensitive exact match (`aapl`) is present, yet the matcher
returns the earlier containment match `AAPLX` — exact matches get no
priority, because the code runs one combined pass.  The final conjunct
shows the containment test is also one-directional: holding `AAPL.US`
contains quote symbol `AAPL`, which the spec's rule (2) would match, but
the code finds nothing. -/
theorem c6_counterexample :
    persistedMatch [qA, qB] "AAPL" = some qA ∧
      qA.symbol.toLower ≠ "AAPL".toLower ∧
      qB.symbol.toLower = "AAPL".toLower ∧
      persistedMatch [⟨"AAPL", 3⟩] "AAPL.US" = none := by
  with_unfolding_all decide

/-- Claim C6 (amended): the persisted matcher makes a single pass over the
quotes in parser order and returns the first quote whose symbol equals the
holding symbol case-insensitively or contains the holding symbol
case-sensitively; exact matches get no priority over containment matches,
and neither holding-contains-quote nor case-insensitive containment is
tested.  If no quote satisfies the predicate there is no match and the
update loop returns the holding unchanged. -/
theorem c6_amended_matcher_single_pass (prices : List Quote) (sym : String) :
    (persistedMatch prices sym = none ↔
        ∀ q ∈ prices, persistedMatchPred sym q = false) ∧
      (∀ q, persistedMatch prices sym = some q →
        persistedMatchPred sym q = true ∧
          ∃ l1 l2, prices = l1 ++ q :: l2 ∧
            ∀ x ∈ l1, persistedMatchPred sym x = false) ∧
      (∀ (stocks : List StockHolding) (now : String) (i : Nat)
          (h1 : i < stocks.length)
          (h2 : i < (persistedUpdateStocks stocks prices now).length),
        persistedMatch prices (stocks.get ⟨i, h1⟩).symbol = none →
        (persistedUpdateStocks stocks prices now).get ⟨i, h2⟩ = stocks.get ⟨i, h1⟩) := by
  refine ⟨?_, ?_, ?_⟩
  · rw [persistedMatch, List.find?_eq_none]
    constructor
    · intro h q hq
      simpa using h q hq
    · intro h q hq
      simp [h q hq]
  · intro q hq
    exact ⟨List.find?_some hq, find?_first_split (persistedMatchPred sym) prices q hq⟩
  · intro stocks now i h1 h2 hnone
    show (stocks.map _).get ⟨i, h2⟩ = stocks.get ⟨i, h1⟩
    rw [List.get_map]
    simp only [hnone]

/-- Concrete instance of the amended C6: a non-matching quote list yields no
match. -/
theorem c6_amended_matcher_single_pass_witness :
    persistedMatch [qA] "ZZZZ" = none :=
  ((c6_amended_matcher_single_pass [qA] "ZZZZ").1).mpr (by with_unfolding_all decide)

def holdTSMC : StockHolding := ⟨"2330.TW", "TSMC", 1000, 500, 980, some "t0"⟩

def qTsmcLower : Quote := ⟨"2330.tw", 990⟩

/-- Claim C9 is false: the demo and persisted price-sync paths are not
equivalent.  On holding `2330.TW` with quote `2330.tw` (the spec's own §8
test 6), the persisted path updates the price to 990 while the demo path,
whose matcher is the case-sensitive `===`, leaves the holding untouched. -/
theorem c9_counterexample :
    demoUpdateStocks [holdTSMC] [qTsmcLower] "t1" = [holdTSMC] ∧
      persistedUpdateStocks [holdTSMC] [qTsmcLower] "t1" =
        [⟨"2330.TW", "TSMC", 1000, 500, 990, some "t1"⟩] ∧
      demoUpdateStocks [holdTSMC] [qTsmcLower] "t1" ≠
        persistedUpdateStocks [holdTSMC] [qTsmcLower] "t1" := by
  with_unfolding_all decide

/-- Claim C9 (amended): the two backends do not share one matching rule; the
demo rule (case-sensitive symbol equality) is strictly stronger than the
persisted rule — every quote accepted by the demo matcher satisfies the
persisted predicate, but not conversely. -/
theorem c9_amended_demo_match_stricter (sym : String) (q : Quote)
    (h : (q.symbol == sym) = true) : persistedMatchPred sym q = true := by
  have he : q.symbol = sym := by simpa using h
  unfold persistedMatchPred
  rw [he]
  simp

/-- Concrete instance of the amended C9. -/
theorem c9_amended_demo_match_stricter_witness :
    persistedMatchPred "AAPL" ⟨"AAPL", 5⟩ = true :=
  c9_amended_demo_match_stricter "AAPL" ⟨"AAPL", 5⟩ (by decide)

/-! ## Claims about the sync coordinator -/

theorem demoFindJs_ok_of_no_null :
    ∀ (l : List Json), (∀ x ∈ l, x ≠ Json.null) → ∀ sym : String,
      ∃ r, demoFindJs l sym = .ok r := by
  intro l
  induction l with
  | nil => intro _ sym; exact ⟨none, rfl⟩
  | cons x xs ih =>
    intro h sym
    have hx : x ≠ Json.null := h x (List.mem_cons_self x xs)
    have hm : ∃ b, demoElemMatches x sym = .ok b := by
      cases x with
      | null => exact absurd rfl hx
      | bool b => exact ⟨false, rfl⟩
      | num q => exact ⟨false, rfl⟩
      | str s1 => exact ⟨false, rfl⟩
      | arr es => exact ⟨false, rfl⟩
      | obj fs =>
        simp only [demoElemMatches]
        rcases lookupField fs "symbol" with _ | j
        · exact ⟨false, rfl⟩
        · cases j with
          | str t => exact ⟨t == sym, rfl⟩
          | null => exact ⟨false, rfl⟩
          | bool b => exact ⟨false, rfl⟩
          | num q => exact ⟨false, rfl⟩
          | arr es => exact ⟨false, rfl⟩
          | obj fs2 => exact ⟨false, rfl⟩
    obtain ⟨b, hb⟩ := hm
    cases b with
    | true => exact ⟨some x, by rw [demoFindJs, hb]⟩
    | false =>
      obtain ⟨r, hr⟩ := ih (fun y hy => h y (List.mem_cons_of_mem x hy)) sym
      exact ⟨r, by rw [demoFindJs, hb, hr]⟩

theorem demoUpdateJs_of_find_none (l : List Json) (now : String) (s : JsHolding)
    (h : demoFindJs l s.symbol = .ok none) : demoUpdateJs l now s = .ok s := by
  rw [demoUpdateJs, h]

theorem demoUpdateJs_ok_of_no_null (l : List Json) (h : ∀ x ∈ l, x ≠ Json.null)
    (now : String) (s : JsHolding) : ∃ s2, demoUpdateJs l now s = .ok s2 := by
  obtain ⟨r, hr⟩ := demoFindJs_ok_of_no_null l h s.symbol
  cases r with
  | none => exact ⟨s, demoUpdateJs_of_find_none l now s hr⟩
  | some x => exact ⟨_, by rw [demoUpdateJs, hr]⟩

theorem demoMapJs_ok_of_no_null (l : List Json) (h : ∀ x ∈ l, x ≠ Json.null) (now : String) :
    ∀ stocks : List JsHolding, ∃ res, demoMapJs stocks l now = .ok res ∧
      ∀ (i : Nat) (s : JsHolding), stocks[i]? = some s →
        demoFindJs l s.symbol = .ok none → res[i]? = some s := by
  intro stocks
  induction stocks with
  | nil =>
    refine ⟨[], rfl, ?_⟩
    intro i s hs
    simp at hs
  | cons s ss ih =>
    obtain ⟨s2, hs2⟩ := demoUpdateJs_ok_of_no_null l h now s
    obtain ⟨res, hres, hpos⟩ := ih
    refine ⟨s2 :: res, by rw [demoMapJs, hs2, hres], ?_⟩
    intro i t ht hf
    cases i with
    | zero =>
      rw [List.getElem?_cons_zero] at ht
      injection ht with ht'
      subst ht'
      have hupd := demoUpdateJs_of_find_none l now s hf
      rw [hupd] at hs2
      injection hs2 with h2
      rw [List.getElem?_cons_zero, ← h2]
    | succ n =>
      rw [List.getElem?_cons_succ] at ht
      rw [List.getElem?_cons_succ]
      exact hpos n t ht hf

def jsHold1 : JsHolding := ⟨"AAPL", "Apple", 10, 150, some (Json.num 220), some "t0"⟩

/-- Claim C8 is false in its "otherwise never raises" half: here the lookup
succeeds and its text parses cleanly to the array `[null]`, yet the demo
coordinator ends in the catch branch (`alerted = true`) — evaluating
`null.symbol` inside the matcher throws, and the thrown error surfaces as
the same coordinator-level alert as a lookup failure (holdings are still
unchanged). -/
theorem c8_counterexample :
    handleUpdateStocksDemo [jsHold1] "t1" (.ok (Json.arr [Json.null], [])) =
      ⟨[jsHold1], true, []⟩ := by
  with_unfolding_all rfl

/-- Claim C8 (amended): (0) with a non-empty symbol list a failing external
call is propagated by `fetchCurrentStockPrices`; (1) on that failure the
coordinator alerts and leaves every holding unchanged; (2) a parse result
whose length test is false (empty array or string, number, boolean, object
without a truthy `length` property) produces no alert and no update; (3) a
parse result of `null` throws at `prices.length` and alerts, holdings
unchanged; (4) a parse result passing the length test without being an
array (non-empty string, object with a truthy `length` property) throws at
`prices.find` and alerts, holdings unchanged; (5) a parsed array containing
no `null` entry never alerts, and every holding the matcher finds no quote
for is returned unchanged.  The amendment against the original claim: the
throwing cases (3), (4) and a `null` entry inside a parsed array surface
the coordinator-level alert even though the lookup succeeded, as the
counterexample above shows. -/
theorem c8_amended_sync_degradation (stocks : List JsHolding) (now : String) :
    (∀ (syms : List String) (e : Unit), syms ≠ [] →
        fetchCurrentStockPrices syms (.error e) = .error e) ∧
      (∀ e, handleUpdateStocksDemo stocks now (.error e) = ⟨stocks, true, []⟩) ∧
      (∀ prices srcs, jsLenCheck prices = .ok false →
        handleUpdateStocksDemo stocks now (.ok (prices, srcs)) = ⟨stocks, false, srcs⟩) ∧
      (∀ srcs, handleUpdateStocksDemo stocks now (.ok (Json.null, srcs)) =
        ⟨stocks, true, []⟩) ∧
      (∀ prices srcs, jsLenCheck prices = .ok true → (∀ l, prices ≠ Json.arr l) →
        handleUpdateStocksDemo stocks now (.ok (prices, srcs)) = ⟨stocks, true, []⟩) ∧
      (∀ l srcs, (∀ x ∈ l, x ≠ Json.null) →
        (handleUpdateStocksDemo stocks now (.ok (Json.arr l, srcs))).alerted = false ∧
          ∀ (i : Nat) (s : JsHolding), stocks[i]? = some s →
            demoFindJs l s.symbol = .ok none →
            (handleUpdateStocksDemo stocks now (.ok (Json.arr l, srcs))).stocks[i]? =
              some s) := by
  refine ⟨?_, ?_, ?_, ?_, ?_, ?_⟩
  · intro syms e hne
    rw [fetchCurrentStockPrices, if_neg hne]
  · intro e; rfl
  · intro prices srcs hlen
    simp only [handleUpdateStocksDemo, hlen]
  · intro srcs; rfl
  · intro prices srcs hlen hna
    cases prices with
    | null => exact absurd hlen (by simp [jsLenCheck])
    | bool b => exact absurd hlen (by simp [jsLenCheck])
    | num q => exact absurd hlen (by simp [jsLenCheck])
    | arr l => exact absurd rfl (hna l)
    | str s => simp only [handleUpdateStocksDemo, hlen]
    | obj fs => simp only [handleUpdateStocksDemo, hlen]
  · intro l srcs hno
    obtain ⟨res, hres, hpos⟩ := demoMapJs_ok_of_no_null l hno now stocks
    cases l with
    | nil =>
      exact ⟨rfl, fun i s hs _ => hs⟩
    | cons x xs =>
      have hlen : jsLenCheck (Json.arr (x :: xs)) = .ok true := by
        simp [jsLenCheck]
      have hshape : handleUpdateStocksDemo stocks now (.ok (Json.arr (x :: xs), srcs)) =
          ⟨res, false, srcs⟩ := by
        simp only [handleUpdateStocksDemo, hlen, hres]
      refine ⟨by rw [hshape], ?_⟩
      intro i s hs hf
      rw [hshape]
      exact hpos i s hs hf

/-- Concrete instance of the amended C8: an empty parsed array gives no
alert and no update. -/
theorem c8_amended_sync_degradation_witness :
    handleUpdateStocksDemo [jsHold1] "t1" (.ok (Json.arr [], [])) = ⟨[jsHold1], false, []⟩ :=
  (c8_amended_sync_degradation [jsHold1] "t1").2.2.1 (Json.arr []) [] (by rfl)

end WealthFlow
